import Mathlib

/-!
# Verification of the Storyline timeline-consolidation core

Shallow embedding of `src/components/FileUpload.tsx` (the `processCSV`
pipeline, the `validateAndParseDate` helper and the `handleManualSubmit`
normalizer).  Calendar dates are represented by an absolute day ordinal
(`dateOrd`): all date values in the program are local midnights, so
`isBefore`/`isSameDay`/`isAfter` correspond to `<`/`=`/`>` on the ordinal
and `addDays d 1` to `+ 1`.  JavaScript objects (`Record<string, string>`
and the `phaseGroups` record) are embedded as association lists without
duplicate keys, built with an insert-or-update operation that mirrors
property assignment; `Object.entries` enumeration order (array-index keys
first, ascending, then string keys in insertion order) is embedded by
`jsEntries`.  A missing array element (JS `undefined`, from indexing past
the end of a short row) is embedded as `""`, which is falsy exactly like
`undefined` in the guards the code uses and fails date parsing exactly
like `undefined` does.

Two further points of JavaScript object semantics are embedded because the
code creates `phaseGroups` and `additionalData` as plain object literals:
a phase named after an `Object.prototype` property (`"toString"`,
`"__proto__"`, …) makes the guard `!phaseGroups[phase]` see a truthy
inherited value, so no array is created and the following `.push` throws a
`TypeError` (`PErr.jsTypeError`); and the assignment
`additionalData["__proto__"] = value` invokes the inherited prototype
setter with a string, a silent no-op that creates no own property.

The repository pins no date-fns version and ships no `package.json`, so
`validateAndParseDate`'s use of the external `parse(s, 'yyyy-MM-dd', …)`
is modelled by the contract the specification states for it: the value
must match the exact `YYYY-MM-DD` shape (four digits, two digits, two
digits) and denote a real calendar date.
-/

namespace Storyline

/-! ## Calendar dates (embedding of date-fns parse/compare on midnights) -/

def isLeap (y : Nat) : Bool :=
  (y % 4 == 0 && y % 100 != 0) || y % 400 == 0

def daysInMonth (y m : Nat) : Nat :=
  if m == 2 then (if isLeap y then 29 else 28)
  else if m == 4 || m == 6 || m == 9 || m == 11 then 30
  else 31

/-- Days in year `y` strictly before the first day of month `m`. -/
def daysBeforeMonth (y m : Nat) : Nat :=
  (List.range (m - 1)).foldl (fun acc i => acc + daysInMonth y (i + 1)) 0

/-- Number of leap years strictly below year `y` (year 0 counts as leap). -/
def leapsBelow (y : Nat) : Nat :=
  if y == 0 then 0 else 1 + ((y - 1) / 4 - (y - 1) / 100 + (y - 1) / 400)

/-- Absolute day ordinal of the calendar date `y-m-d`; consecutive calendar
days have consecutive ordinals. -/
def dateOrd (y m d : Nat) : Nat :=
  365 * y + leapsBelow y + daysBeforeMonth y m + (d - 1)

def digitVal (c : Char) : Nat := c.toNat - 48

/-- Embedding of `validateAndParseDate`: date-fns `parse(s, 'yyyy-MM-dd', …)`
followed by `isValid`.  Accepts exactly a four-digit year, a dash, a
two-digit month, a dash and a two-digit day, denoting a real calendar date;
returns the date's ordinal, or `none` (the code's `null`). -/
def validateAndParseDate (s : String) : Option Nat :=
  match s.toList with
  | [y1, y2, y3, y4, h1, m1, m2, h2, d1, d2] =>
    if y1.isDigit && y2.isDigit && y3.isDigit && y4.isDigit &&
       h1 == '-' && h2 == '-' &&
       m1.isDigit && m2.isDigit && d1.isDigit && d2.isDigit then
      let y := 1000 * digitVal y1 + 100 * digitVal y2 + 10 * digitVal y3 + digitVal y4
      let m := 10 * digitVal m1 + digitVal m2
      let d := 10 * digitVal d1 + digitVal d2
      if 1 ≤ m && m ≤ 12 && 1 ≤ d && d ≤ daysInMonth y m then
        some (dateOrd y m d)
      else none
    else none
  | _ => none

/-! ## String splitting and trimming (embedding of `split` and `trim`) -/

/-- Split a character list at every occurrence of `sep` (JS
`String.prototype.split` with a single-character separator). -/
def splitOnChar (sep : Char) : List Char → List (List Char)
  | [] => [[]]
  | c :: cs =>
    let rest := splitOnChar sep cs
    if c == sep then [] :: rest
    else
      match rest with
      | t :: ts => (c :: t) :: ts
      | [] => [[c]]

def isWS (c : Char) : Bool := c == ' ' || c == '\t' || c == '\n' || c == '\r'

/-- `s.trim()`: strip whitespace from both ends. -/
def trimStr (s : String) : String :=
  String.mk (((s.toList.dropWhile isWS).reverse.dropWhile isWS).reverse)

/-- `s.split(sep)` for a one-character separator. -/
def splitStr (sep : Char) (s : String) : List String :=
  (splitOnChar sep s.toList).map String.mk

/-! ## JavaScript objects as association lists -/

/-- Property lookup on an embedded JS object. -/
def findVal (m : List (String × String)) (k : String) : Option String :=
  (m.find? (fun p => p.1 == k)).map (·.2)

/-- Property assignment `obj[k] = v`: update the existing key in place, or
append a new key at the end (JS string keys keep insertion order). -/
def objInsert (m : List (String × String)) (k v : String) :
    List (String × String) :=
  if m.any (fun p => p.1 == k) then
    m.map (fun p => if p.1 == k then (k, v) else p)
  else m ++ [(k, v)]

/-- Embedding of the object spread `{ ...a, ...b }`: keys of `b` assigned
over a copy of `a`, so `b`'s keys take precedence on collision. -/
def jsMergeObj (a b : List (String × String)) : List (String × String) :=
  b.foldl (fun acc p => objInsert acc p.1 p.2) a

/-! ## Data model -/

structure FieldMapping where
  phase : String
  startDate : String
  endDate : String
deriving Repr, DecidableEq

/-- One validated per-row entry inside a phase group
(`{ startDate, endDate, additionalData }` in `processCSV`). -/
structure Entry where
  startDate : Nat
  endDate : Nat
  additionalData : List (String × String)
deriving Repr, DecidableEq

/-- Output record (`TimelineData` in `types.ts`); `additionalData` is an
optional field there, so it is an `Option` here. -/
structure TimelineRecord where
  phase : String
  startDate : Nat
  endDate : Nat
  additionalData : Option (List (String × String))
deriving Repr, DecidableEq

/-- The distinct `throw` sites of `processCSV` and the validation failure
of `handleManualSubmit`, by their error messages. -/
inductive PErr where
  /-- `'Selected fields are not valid in the CSV file'` -/
  | invalidMapping
  /-- `'No data rows found in the CSV file'` -/
  | noDataRows
  /-- `'Invalid date format found. …'` -/
  | invalidDateFormat
  /-- `` `Invalid date range found for phase "${phase}" …` `` -/
  | invalidDateRange (phase : String)
  /-- `'No valid data found to create timeline'` -/
  | noValidData
  /-- `'No valid timeline data could be created from the CSV'` -/
  | noTimelineData
  /-- the `TypeError` thrown by `phaseGroups[phase].push(…)` when `phase`
  collides with an inherited `Object.prototype` property: the guard
  `!phaseGroups[phase]` sees a truthy inherited value, skips creating the
  array, and `.push` is called on a non-array -/
  | jsTypeError
  /-- the manual-entry validation failure message -/
  | invalidManualEntry
deriving Repr, DecidableEq

/-- Outcome of one `processCSV` call: the mapping-UI branch (an early
`return` after `setShowMapping(true)`), a thrown error, or a delivered
timeline (`setTimelineData`). -/
inductive ProcessResult where
  | mappingRequired (headers : List String)
  | failure (e : PErr)
  | timeline (records : List TimelineRecord)
deriving Repr, DecidableEq

/-! ## The processCSV pipeline -/

/-- `csvText.split('\n')[0].split(',').map(h => h.trim())`. -/
def headersOf (csvText : String) : List String :=
  (splitStr ',' ((splitStr '\n' csvText).headD "")).map trimStr

/-- The mapping actually used: the caller's if supplied; otherwise the
default `{phase, startDate, endDate}` when all three default names occur in
the headers, and `none` (the `MappingRequired` early return) otherwise. -/
def effectiveMapping (headers : List String) (m? : Option FieldMapping) :
    Option FieldMapping :=
  match m? with
  | some m => some m
  | none =>
    if (headers.contains "phase" && headers.contains "startDate" &&
        headers.contains "endDate") then
      some ⟨"phase", "startDate", "endDate"⟩
    else none

/-- `headers.indexOf` for the three mapped names; `none` when some index
is `-1`. -/
def indicesOf (headers : List String) (m : FieldMapping) :
    Option (Nat × Nat × Nat) :=
  match headers.findIdx? (· == m.phase), headers.findIdx? (· == m.startDate),
        headers.findIdx? (· == m.endDate) with
  | some pI, some sI, some eI => some (pI, sI, eI)
  | _, _, _ => none

/-- `lines.slice(1).filter(line => line.trim())`, each kept line split on
commas with every cell trimmed (done inside the loop in the source). -/
def dataRowsOf (csvText : String) : List (List String) :=
  (((splitStr '\n' csvText).drop 1).filter (fun l => trimStr l != "")).map
    (fun l => (splitStr ',' l).map trimStr)

/-- The property names a fresh object literal inherits from
`Object.prototype`; looking any of them up on `phaseGroups` yields a truthy
function (or, for `__proto__`, an object) instead of `undefined`. -/
def protoProps : List String :=
  ["constructor", "hasOwnProperty", "isPrototypeOf", "propertyIsEnumerable",
   "toLocaleString", "toString", "valueOf", "__defineGetter__",
   "__defineSetter__", "__lookupGetter__", "__lookupSetter__", "__proto__"]

/-- The `headers.forEach` loop building a row's `additionalData`: every
header whose index is none of the three mapped indices, assigned in header
order.  Assigning to the key `"__proto__"` invokes the inherited prototype
setter with a string, which is a silent no-op and creates no own property. -/
def rowAdditional (headers : List String) (pI sI eI : Nat)
    (vs : List String) : List (String × String) :=
  headers.enum.foldl
    (fun m p =>
      if p.1 ≠ pI ∧ p.1 ≠ sI ∧ p.1 ≠ eI then
        if p.2 == "__proto__" then m else objInsert m p.2 (vs.getD p.1 "")
      else m) []

/-- `phaseGroups[phase].push(entry)` with on-demand creation of the group. -/
def groupsPush (gs : List (String × List Entry)) (k : String) (e : Entry) :
    List (String × List Entry) :=
  if gs.any (fun p => p.1 == k) then
    gs.map (fun p => if p.1 == k then (p.1, p.2 ++ [e]) else p)
  else gs ++ [(k, [e])]

/-- The row loop of `processCSV`: skip empty-phase rows, fail on the first
unparsable date or inverted range, otherwise push the entry onto its phase
group. -/
def buildGroups (pI sI eI : Nat) (headers : List String) :
    List (List String) → List (String × List Entry) →
    Except PErr (List (String × List Entry))
  | [], gs => .ok gs
  | vs :: rest, gs =>
    let phase := vs.getD pI ""
    if phase == "" then buildGroups pI sI eI headers rest gs
    else
      match validateAndParseDate (vs.getD sI ""),
            validateAndParseDate (vs.getD eI "") with
      | some s, some e =>
        if e < s then .error (.invalidDateRange phase)
        else
          if !gs.any (fun p => p.1 == phase) && protoProps.contains phase then
            .error .jsTypeError
          else
            buildGroups pI sI eI headers rest
              (groupsPush gs phase ⟨s, e, rowAdditional headers pI sI eI vs⟩)
      | _, _ => .error .invalidDateFormat

/-- The sort comparator `(a, b) => a.startDate.getTime() - b.startDate.getTime()`. -/
def entryLE (a b : Entry) : Prop := a.startDate ≤ b.startDate

instance : DecidableRel entryLE := fun _ _ => Nat.decLe _ _

instance : IsTotal Entry entryLE := ⟨fun a b => Nat.le_total a.startDate b.startDate⟩

instance : IsTrans Entry entryLE := ⟨fun _ _ _ h h' => Nat.le_trans h h'⟩

/-- `entries.sort(byStartDate)` — a stable ascending sort by start date. -/
def sortByStart (l : List Entry) : List Entry := l.insertionSort entryLE

/-- One step of the `reduce` merging sorted entries: merge `curr` into the
last range when it overlaps (`isBefore`/`isSameDay`) or is exactly one day
after its end (`isSameDay(addDays(end,1), start)`), else append a new
range. -/
def mergeStep (acc : List Entry) (curr : Entry) : List Entry :=
  match acc.getLast? with
  | none => [curr]
  | some lastRange =>
    if curr.startDate < lastRange.endDate || curr.startDate == lastRange.endDate ||
       lastRange.endDate + 1 == curr.startDate then
      acc.dropLast ++
        [{ lastRange with
            endDate := if lastRange.endDate < curr.endDate then curr.endDate
                       else lastRange.endDate,
            additionalData := jsMergeObj lastRange.additionalData curr.additionalData }]
    else acc ++ [curr]

/-- `entries.reduce(…, [])`. -/
def mergeRanges (l : List Entry) : List Entry := l.foldl mergeStep []

/-- The per-phase body of the `Object.entries(phaseGroups).map`: sort,
merge, and emit a record from `mergedRanges[0]` only. -/
def consolidatePhase (phase : String) (entries : List Entry) : TimelineRecord :=
  let firstRange := (mergeRanges (sortByStart entries)).headD ⟨0, 0, []⟩
  { phase := phase, startDate := firstRange.startDate,
    endDate := firstRange.endDate,
    additionalData := some firstRange.additionalData }

/-- Numeric value of a digit string (0 on the empty string). -/
def digitsVal (s : String) : Nat :=
  s.toList.foldl (fun n c => 10 * n + digitVal c) 0

/-- Whether `s` is a canonical array-index property key (the decimal
numeral of some `n < 2^32 - 1`); such keys enumerate first in a JS object. -/
def isArrayIndex (s : String) : Bool :=
  match s.toList with
  | [] => false
  | c :: cs =>
    (c :: cs).all Char.isDigit && (c != '0' || cs.isEmpty) &&
      digitsVal s < 4294967295

def keyNum (p : String × List Entry) : Nat := digitsVal p.1

def keyNumLE (a b : String × List Entry) : Prop := keyNum a ≤ keyNum b

instance : DecidableRel keyNumLE := fun _ _ => Nat.decLe _ _

instance : IsTotal (String × List Entry) keyNumLE :=
  ⟨fun a b => Nat.le_total (keyNum a) (keyNum b)⟩

instance : IsTrans (String × List Entry) keyNumLE :=
  ⟨fun _ _ _ h h' => Nat.le_trans h h'⟩

/-- `Object.entries` enumeration order: array-index keys first in ascending
numeric order, then the remaining keys in insertion order. -/
def jsEntries (gs : List (String × List Entry)) : List (String × List Entry) :=
  ((gs.filter (fun p => isArrayIndex p.1)).insertionSort keyNumLE) ++
    gs.filter (fun p => !isArrayIndex p.1)

/-- Embedding of `processCSV(csvText, mapping?)`. -/
def processCSV (csvText : String) (m? : Option FieldMapping) : ProcessResult :=
  let headers := headersOf csvText
  match effectiveMapping headers m? with
  | none => .mappingRequired headers
  | some mapping =>
    match indicesOf headers mapping with
    | none => .failure .invalidMapping
    | some (pI, sI, eI) =>
      let dataRows := dataRowsOf csvText
      if dataRows.isEmpty then .failure .noDataRows
      else
        match buildGroups pI sI eI headers dataRows [] with
        | .error e => .failure e
        | .ok gs =>
          if gs.isEmpty then .failure .noValidData
          else
            let consolidated :=
              (jsEntries gs).map (fun p => consolidatePhase p.1 p.2)
            if consolidated.isEmpty then .failure .noTimelineData
            else .timeline consolidated

/-! ## Manual entry normalizer -/

structure ManualEntry where
  phase : String
  startMonth : Nat
  endMonth : Nat
  description : String
deriving Repr, DecidableEq

/-- `new Date(currentYear, month, 1)` as an ordinal (JS months are
0-based and roll over into later years when ≥ 12). -/
def monthStartOrd (year month : Nat) : Nat :=
  dateOrd (year + month / 12) (month % 12 + 1) 1

/-- The record built for one valid manual entry. -/
def manualRecord (currentYear : Nat) (e : ManualEntry) : TimelineRecord :=
  { phase := e.phase,
    startDate := monthStartOrd currentYear e.startMonth,
    endDate := monthStartOrd currentYear e.endMonth,
    additionalData :=
      if e.description != "" then some [("description", e.description)] else none }

/-- Embedding of `handleManualSubmit` (minus the confirmation dialog):
validate every entry, then map each to its record. -/
def handleManualSubmit (currentYear : Nat) (entries : List ManualEntry) :
    Except PErr (List TimelineRecord) :=
  if entries.all (fun e => trimStr e.phase != "" && e.startMonth ≤ e.endMonth) then
    .ok (entries.map (manualRecord currentYear))
  else .error .invalidManualEntry

/-! ## Derived views of the pipeline, used to state the claims -/

/-- The non-empty (after trimming) phase values of the data rows, in row
order, when the mapping resolves; `[]` otherwise. -/
def phasesOf (csvText : String) (m? : Option FieldMapping) : List String :=
  let headers := headersOf csvText
  match effectiveMapping headers m? with
  | none => []
  | some mapping =>
    match indicesOf headers mapping with
    | none => []
    | some (pI, _, _) =>
      ((dataRowsOf csvText).map (fun vs => vs.getD pI "")).filter (fun p => p != "")

/-- First-appearance deduplication: keeps the first occurrence of each
value, in order, skipping values already in `seen`. -/
def firstAppear (seen : List String) : List String → List String
  | [] => []
  | p :: ps =>
    if seen.contains p then firstAppear seen ps
    else p :: firstAppear (seen ++ [p]) ps

/-- The phase groups `processCSV` builds, when every row validates and the
mapping resolves; `[]` otherwise. -/
def groupsOf (csvText : String) (m? : Option FieldMapping) :
    List (String × List Entry) :=
  let headers := headersOf csvText
  match effectiveMapping headers m? with
  | none => []
  | some mapping =>
    match indicesOf headers mapping with
    | none => []
    | some (pI, sI, eI) =>
      match buildGroups pI sI eI headers (dataRowsOf csvText) [] with
      | .ok gs => gs
      | .error _ => []

/-- The validated entries collected for phase `p`. -/
def entriesOf (csvText : String) (m? : Option FieldMapping) (p : String) :
    List Entry :=
  (((groupsOf csvText m?).find? (fun q => q.1 == p)).map (·.2)).getD []

/-! ## Row-validity notions shared by C5, C6 and C10 -/

/-- A data row that cannot make the loop fail: its phase is empty (it is
skipped) or both dates parse, the range is not inverted, and the phase does
not collide with an `Object.prototype` property. -/
def rowPasses (pI sI eI : Nat) (vs : List String) : Prop :=
  vs.getD pI "" = "" ∨
    ((∃ s e, validateAndParseDate (vs.getD sI "") = some s ∧
      validateAndParseDate (vs.getD eI "") = some e ∧ s ≤ e) ∧
     vs.getD pI "" ∉ protoProps)

instance (pI sI eI : Nat) (vs : List String) :
    Decidable (rowPasses pI sI eI vs) := by
  unfold rowPasses
  have : (∃ s e, validateAndParseDate (vs.getD sI "") = some s ∧
      validateAndParseDate (vs.getD eI "") = some e ∧ s ≤ e) ↔
      (match validateAndParseDate (vs.getD sI ""),
             validateAndParseDate (vs.getD eI "") with
       | some s, some e => s ≤ e
       | _, _ => False) := by
    cases hs : validateAndParseDate (vs.getD sI "") <;>
      cases he : validateAndParseDate (vs.getD eI "") <;>
      simp
  rw [this]
  cases validateAndParseDate (vs.getD sI "") <;>
    cases validateAndParseDate (vs.getD eI "") <;>
    exact inferInstance

/-- The phase cells of the rows, empty ones dropped — matches `phasesOf`
once the mapping is resolved. -/
def phasesFrom (pI : Nat) (rows : List (List String)) : List String :=
  (rows.map (fun vs => vs.getD pI "")).filter (fun p => p != "")

/-! ## Lemmas: JS object semantics -/

theorem contains_iff_mem (l : List String) (a : String) :
    l.contains a = true ↔ a ∈ l := by simp

theorem findVal_mapUpd (a : List (String × String)) (k v k' : String) :
    findVal (a.map (fun p => if p.1 == k then (k, v) else p)) k' =
      if k' = k then (a.find? (fun p => p.1 == k)).map (fun _ => v)
      else findVal a k' := by
  induction a with
  | nil => simp [findVal]
  | cons p ps ih =>
    simp only [List.map_cons, findVal, List.find?_cons] at *
    by_cases hpk : p.1 = k
    · simp only [if_pos (beq_iff_eq.mpr hpk)]
      by_cases hk' : k' = k
      · subst hk'
        simp [hpk]
      · have h1 : ((k, v).1 == k') = false := by
          simp only [beq_eq_false_iff_ne]; exact fun h => hk' h.symm
        have h2 : (p.1 == k') = false := by
          simp only [beq_eq_false_iff_ne]; exact fun h => hk' (hpk ▸ h).symm
        simpa [h1, h2, hk'] using ih
    · have h2 : (p.1 == k) = false := beq_eq_false_iff_ne.mpr hpk
      simp only [h2, Bool.false_eq_true, if_neg (by simp : ¬False)]
      by_cases hpk' : p.1 = k'
      · have hne : k' ≠ k := fun h => hpk (hpk' ▸ h)
        simp [hpk', hne]
      · have h1 : (p.1 == k') = false := beq_eq_false_iff_ne.mpr hpk'
        simpa [h1] using ih



theorem findVal_objInsert (a : List (String × String)) (k v k' : String) :
    findVal (objInsert a k v) k' = if k' = k then some v else findVal a k' := by
  unfold objInsert
  by_cases hmem : a.any (fun p => p.1 == k) = true
  · rw [if_pos hmem, findVal_mapUpd]
    rcases List.any_eq_true.mp hmem with ⟨q, hq, hqk⟩
    have hsome : (a.find? (fun p => p.1 == k)).isSome = true :=
      List.find?_isSome.mpr ⟨q, hq, hqk⟩
    cases hfind : a.find? (fun p => p.1 == k) with
    | none => rw [hfind] at hsome; simp at hsome
    | some r => simp [hfind]
  · rw [if_neg hmem]
    have habs : ∀ p ∈ a, (p.1 == k) = false := by
      intro p hp
      by_contra hc
      simp only [Bool.not_eq_false] at hc
      exact hmem (List.any_eq_true.mpr ⟨p, hp, hc⟩)
    by_cases hk' : k' = k
    · subst hk'
      have h1 : a.find? (fun p => p.1 == k') = none := by
        rw [List.find?_eq_none]
        intro p hp
        simp [habs p hp]
      simp [findVal, List.find?_append, h1, List.find?]
    · have h2 : List.find? (fun p => p.1 == k') [(k, v)] = none := by
        simp only [List.find?]
        have : ((k, v).1 == k') = false := by
          simp only [beq_eq_false_iff_ne]; exact fun h => hk' h.symm
        simp [this]
      simp [findVal, List.find?_append, h2, hk']

theorem findVal_eq_none (m : List (String × String)) (k : String)
    (h : k ∉ m.map Prod.fst) : findVal m k = none := by
  unfold findVal
  rw [List.find?_eq_none.mpr]
  · rfl
  · intro p hp
    simp only [beq_iff_eq]
    intro hc
    exact h (hc ▸ List.mem_map_of_mem Prod.fst hp)

theorem findVal_jsMergeObj (a b : List (String × String))
    (hb : (b.map Prod.fst).Nodup) (k : String) :
    findVal (jsMergeObj a b) k =
      ((findVal b k).or (findVal a k)) := by
  induction b generalizing a with
  | nil => simp [jsMergeObj, findVal]
  | cons p ps ih =>
    simp only [List.map_cons, List.nodup_cons] at hb
    have hstep : jsMergeObj a (p :: ps) = jsMergeObj (objInsert a p.1 p.2) ps := by
      simp [jsMergeObj]
    rw [hstep, ih _ hb.2]
    by_cases hk : k = p.1
    · rw [hk]
      have hnone : findVal ps p.1 = none := findVal_eq_none ps p.1 hb.1
      have hcons : findVal (p :: ps) p.1 = some p.2 := by
        simp [findVal, List.find?_cons]
      rw [hnone, hcons, findVal_objInsert]
      simp
    · have hcons : findVal (p :: ps) k = findVal ps k := by
        have hne : (p.1 == k) = false := by
          simp only [beq_eq_false_iff_ne]; exact fun h => hk h.symm
        simp [findVal, List.find?_cons, hne]
      rw [hcons, findVal_objInsert, if_neg hk]

/-! ## Claim C1: the merge condition -/

/-- C1: in consolidation, an entry merges into the current merged range
(the last element of the accumulator) exactly when its start date is ≤ the
range's end date or is one calendar day after it; a merge keeps the range's
start, sets its end to the later of the two ends, and unions
`additionalData` with the new entry's keys winning on collision; otherwise
the entry starts a new range. -/
theorem mergeStep_condition (acc : List Entry) (curr last : Entry)
    (h : acc.getLast? = some last)
    (hnd : (curr.additionalData.map Prod.fst).Nodup) :
    (mergeStep acc curr =
      if curr.startDate ≤ last.endDate ∨ curr.startDate = last.endDate + 1 then
        acc.dropLast ++ [⟨last.startDate, max last.endDate curr.endDate,
          jsMergeObj last.additionalData curr.additionalData⟩]
      else acc ++ [curr]) ∧
    (∀ k, findVal (jsMergeObj last.additionalData curr.additionalData) k =
      ((findVal curr.additionalData k).or (findVal last.additionalData k))) := by
  constructor
  · have hmax : (if last.endDate < curr.endDate then curr.endDate
        else last.endDate) = max last.endDate curr.endDate := by
      rcases Nat.lt_or_ge last.endDate curr.endDate with h' | h'
      · simp [h', Nat.max_eq_right (Nat.le_of_lt h')]
      · simp [Nat.not_lt.mpr h', Nat.max_eq_left h']
    by_cases hc : curr.startDate ≤ last.endDate ∨ curr.startDate = last.endDate + 1
    · have hb : (curr.startDate < last.endDate ||
          curr.startDate == last.endDate ||
          last.endDate + 1 == curr.startDate) = true := by
        simp only [Bool.or_eq_true, decide_eq_true_eq, beq_iff_eq]
        omega
      simp only [mergeStep, h, hb, if_pos hc, if_true, hmax]
    · have hb : (curr.startDate < last.endDate ||
          curr.startDate == last.endDate ||
          last.endDate + 1 == curr.startDate) = false := by
        simp only [Bool.or_eq_false_iff, decide_eq_false_iff_not, beq_eq_false_iff_ne]
        omega
      simp only [mergeStep, h, hb, if_neg hc, Bool.false_eq_true, if_false]
  · intro k
    exact findVal_jsMergeObj _ _ hnd k

/-- Witness for C1: a concrete overlapping pair merges, keeping the earlier
start, taking the later end, and letting the new entry's value win on the
colliding key. -/
theorem mergeStep_condition_witness :
    ([Entry.mk 10 20 [("a", "1")]].getLast? = some ⟨10, 20, [("a", "1")]⟩) ∧
    ((([("a", "2"), ("b", "3")] : List (String × String)).map Prod.fst).Nodup) ∧
    mergeStep [⟨10, 20, [("a", "1")]⟩] ⟨15, 30, [("a", "2"), ("b", "3")]⟩ =
      [⟨10, 30, [("a", "2"), ("b", "3")]⟩] := by
  refine ⟨by decide, by decide, ?_⟩
  have h := (mergeStep_condition [⟨10, 20, [("a", "1")]⟩]
    ⟨15, 30, [("a", "2"), ("b", "3")]⟩ ⟨10, 20, [("a", "1")]⟩
    (by decide) (by decide)).1
  rw [h]
  decide

/-! ## Claim C2: only the first merged range is emitted -/

/-- C2: whatever ranges the merge produces, the emitted record for a phase
is built from the first merged range alone — later disjoint ranges are
discarded; concretely, the spec's gap example yields one record covering
only `2024-01-01..2024-01-05`. -/
theorem consolidate_first_range_only (phase : String) (entries : List Entry)
    (r : Entry) (rest : List Entry)
    (h : mergeRanges (sortByStart entries) = r :: rest) :
    consolidatePhase phase entries =
      ⟨phase, r.startDate, r.endDate, some r.additionalData⟩ ∧
    processCSV "phase,startDate,endDate\nX,2024-01-01,2024-01-05\nX,2024-01-10,2024-01-15"
        none =
      .timeline [⟨"X", dateOrd 2024 1 1, dateOrd 2024 1 5, some []⟩] := by
  constructor
  · unfold consolidatePhase
    rw [h]
    rfl
  · decide

/-- Witness for C2: the gap example's two entries produce two merged
ranges, and the emitted record comes from the first. -/
theorem consolidate_first_range_only_witness :
    mergeRanges (sortByStart [⟨dateOrd 2024 1 1, dateOrd 2024 1 5, []⟩,
        ⟨dateOrd 2024 1 10, dateOrd 2024 1 15, []⟩]) =
      [⟨dateOrd 2024 1 1, dateOrd 2024 1 5, []⟩,
       ⟨dateOrd 2024 1 10, dateOrd 2024 1 15, []⟩] ∧
    consolidatePhase "X" [⟨dateOrd 2024 1 1, dateOrd 2024 1 5, []⟩,
        ⟨dateOrd 2024 1 10, dateOrd 2024 1 15, []⟩] =
      ⟨"X", dateOrd 2024 1 1, dateOrd 2024 1 5, some []⟩ := by
  refine ⟨by decide, ?_⟩
  exact (consolidate_first_range_only "X"
    [⟨dateOrd 2024 1 1, dateOrd 2024 1 5, []⟩,
     ⟨dateOrd 2024 1 10, dateOrd 2024 1 15, []⟩]
    ⟨dateOrd 2024 1 1, dateOrd 2024 1 5, []⟩
    [⟨dateOrd 2024 1 10, dateOrd 2024 1 15, []⟩] (by decide)).1

/-! ## Claim C7: mapping resolution signals -/

theorem findIdxBeq_none (l : List String) (c : String) (h : c ∉ l) :
    l.findIdx? (· == c) = none :=
  List.findIdx?_eq_none_iff.mpr
    (fun _ hx => beq_eq_false_iff_ne.mpr (fun hxc => h (hxc ▸ hx)))

/-- C7: with no mapping and a default column name missing, the call returns
`MappingRequired` carrying the header list; with a supplied mapping naming a
column absent from the headers, it fails with `InvalidMapping`, a result
distinct from `MappingRequired`. -/
theorem mapping_resolution (csv : String) (m : FieldMapping) :
    (("phase" ∉ headersOf csv ∨ "startDate" ∉ headersOf csv ∨
        "endDate" ∉ headersOf csv) →
      processCSV csv none = .mappingRequired (headersOf csv)) ∧
    ((m.phase ∉ headersOf csv ∨ m.startDate ∉ headersOf csv ∨
        m.endDate ∉ headersOf csv) →
      processCSV csv (some m) = .failure .invalidMapping) ∧
    (∀ hs, (ProcessResult.failure .invalidMapping) ≠ .mappingRequired hs) := by
  refine ⟨?_, ?_, fun hs h => by cases h⟩
  · intro h
    have hcond : ¬ (("phase" ∈ headersOf csv ∧ "startDate" ∈ headersOf csv) ∧
        "endDate" ∈ headersOf csv) := by tauto
    simp [processCSV, effectiveMapping, hcond]
  · intro h
    have hidx : indicesOf (headersOf csv) m = none := by
      unfold indicesOf
      rcases h with h | h | h
      · rw [findIdxBeq_none _ _ h]
      · rw [findIdxBeq_none _ _ h]
        cases (headersOf csv).findIdx? (· == m.phase) <;> rfl
      · rw [findIdxBeq_none _ _ h]
        cases (headersOf csv).findIdx? (· == m.phase) <;>
          cases (headersOf csv).findIdx? (· == m.startDate) <;> rfl
    simp [processCSV, effectiveMapping, hidx]

/-- Witness for C7: a header row missing all defaults triggers
`MappingRequired` with the header list, and a mapping naming a nonexistent
column fails with `InvalidMapping`. -/
theorem mapping_resolution_witness :
    ("phase" ∉ headersOf "a,b,c\n1,2,3") ∧
    processCSV "a,b,c\n1,2,3" none = .mappingRequired ["a", "b", "c"] ∧
    ("nope" ∉ headersOf "phase,startDate,endDate\nA,2024-01-01,2024-01-02") ∧
    processCSV "phase,startDate,endDate\nA,2024-01-01,2024-01-02"
      (some ⟨"phase", "nope", "endDate"⟩) = .failure .invalidMapping := by
  refine ⟨by decide, ?_, by decide, ?_⟩
  · have h := (mapping_resolution "a,b,c\n1,2,3"
      ⟨"phase", "nope", "endDate"⟩).1 (Or.inl (by decide))
    rw [h]; decide
  · exact (mapping_resolution "phase,startDate,endDate\nA,2024-01-01,2024-01-02"
      ⟨"phase", "nope", "endDate"⟩).2.1 (Or.inr (Or.inl (by decide)))

/-! ## Claim C8: empty dataset and the unreachable re-check -/

theorem buildGroups_skip_all (pI sI eI : Nat) (headers : List String)
    (rows : List (List String)) (gs : List (String × List Entry))
    (h : ∀ vs ∈ rows, vs.getD pI "" = "") :
    buildGroups pI sI eI headers rows gs = .ok gs := by
  induction rows with
  | nil => rfl
  | cons vs rest ih =>
    have hv : vs.getD pI "" = "" := h vs (List.mem_cons_self vs rest)
    unfold buildGroups
    rw [hv]
    simpa using ih (fun v hv' => h v (List.mem_cons_of_mem vs hv'))

theorem buildGroups_error_shape (pI sI eI : Nat) (headers : List String)
    (rows : List (List String)) (gs : List (String × List Entry)) (e : PErr)
    (h : buildGroups pI sI eI headers rows gs = .error e) :
    e = .invalidDateFormat ∨ (∃ p, e = .invalidDateRange p) ∨
      e = .jsTypeError := by
  induction rows generalizing gs with
  | nil => cases h
  | cons vs rest ih =>
    unfold buildGroups at h
    by_cases hp : vs.getD pI "" == ""
    · rw [if_pos hp] at h
      exact ih _ h
    · rw [if_neg hp] at h
      cases hs : validateAndParseDate (vs.getD sI "") with
      | none =>
        rw [hs] at h
        cases he : validateAndParseDate (vs.getD eI "") <;> rw [he] at h <;>
          simp only at h <;> cases h <;> exact Or.inl rfl
      | some s =>
        rw [hs] at h
        cases he : validateAndParseDate (vs.getD eI "") with
        | none => rw [he] at h; simp only at h; cases h; exact Or.inl rfl
        | some en =>
          rw [he] at h
          simp only at h
          by_cases hlt : en < s
          · rw [if_pos hlt] at h; cases h
            exact Or.inr (Or.inl ⟨vs.getD pI "", rfl⟩)
          · rw [if_neg hlt] at h
            by_cases hcr : ((!gs.any fun p => p.1 == vs.getD pI "") &&
                protoProps.contains (vs.getD pI "")) = true
            · rw [if_pos hcr] at h
              cases h
              exact Or.inr (Or.inr rfl)
            · rw [if_neg hcr] at h
              exact ih _ h

theorem jsEntries_perm (gs : List (String × List Entry)) :
    (jsEntries gs).Perm gs := by
  unfold jsEntries
  exact ((List.perm_insertionSort keyNumLE _).append (List.Perm.refl _)).trans
    (List.filter_append_perm _ gs)

/-- C8: with a resolved mapping, no surviving rows fail the batch with the
`EmptyDataset` errors — `noDataRows` when there are no non-blank data rows
at all, `noValidData` when every data row's phase is empty — and the final
re-check (`noTimelineData`) is unreachable on every input. -/
theorem empty_dataset (csv : String) (m? : Option FieldMapping)
    (mapping : FieldMapping) (pI sI eI : Nat)
    (hm : effectiveMapping (headersOf csv) m? = some mapping)
    (hi : indicesOf (headersOf csv) mapping = some (pI, sI, eI)) :
    (dataRowsOf csv = [] → processCSV csv m? = .failure .noDataRows) ∧
    (dataRowsOf csv ≠ [] → (∀ vs ∈ dataRowsOf csv, vs.getD pI "" = "") →
      processCSV csv m? = .failure .noValidData) ∧
    (∀ csv' m?', processCSV csv' m?' ≠ .failure .noTimelineData) := by
  refine ⟨?_, ?_, ?_⟩
  · intro h
    simp [processCSV, hm, hi, h]
  · intro hne hall
    have hb : buildGroups pI sI eI (headersOf csv) (dataRowsOf csv) [] = .ok [] :=
      buildGroups_skip_all _ _ _ _ _ _ hall
    have hempty : (dataRowsOf csv).isEmpty = false := by
      cases hrows : dataRowsOf csv with
      | nil => exact absurd hrows hne
      | cons a l => rfl
    simp [processCSV, hm, hi, hempty, hb]
  · intro csv' m?' h
    simp only [processCSV] at h
    cases hEM : effectiveMapping (headersOf csv') m?' with
    | none => simp only [hEM] at h; cases h
    | some mp =>
      simp only [hEM] at h
      cases hIdx : indicesOf (headersOf csv') mp with
      | none => simp only [hIdx] at h; cases h
      | some idx =>
        obtain ⟨pI', sI', eI'⟩ := idx
        simp only [hIdx] at h
        by_cases hrows : (dataRowsOf csv').isEmpty
        · simp only [hrows, if_true] at h; cases h
        · simp only [hrows, Bool.false_eq_true, if_false] at h
          cases hB : buildGroups pI' sI' eI' (headersOf csv') (dataRowsOf csv') [] with
          | error e =>
            simp only [hB] at h
            cases h
            rcases buildGroups_error_shape _ _ _ _ _ _ _ hB with h' | ⟨p, h'⟩ | h' <;>
              cases h'
          | ok gs =>
            simp only [hB] at h
            by_cases hgs : gs.isEmpty
            · simp only [hgs, if_true] at h; cases h
            · simp only [hgs, Bool.false_eq_true, if_false] at h
              have hgsne : gs ≠ [] := by
                cases gs with
                | nil => simp at hgs
                | cons a l => exact fun hc => by cases hc
              have hjne : jsEntries gs ≠ [] := by
                intro hnil
                exact hgsne (List.perm_nil.mp ((jsEntries_perm gs).symm.trans
                  (hnil ▸ List.Perm.refl _)))
              have hcne : (jsEntries gs).map
                  (fun p => consolidatePhase p.1 p.2) ≠ [] := by
                simpa [List.map_eq_nil_iff] using hjne
              have hcfalse : ((jsEntries gs).map
                  (fun p => consolidatePhase p.1 p.2)).isEmpty = false := by
                cases hc : (jsEntries gs).map (fun p => consolidatePhase p.1 p.2) with
                | nil => exact absurd hc hcne
                | cons a l => rfl
              rw [hcfalse] at h
              simp at h
  
/-- Witness for C8: the resolved default mapping with a header-only input
fails `noDataRows`; with only empty-phase rows it fails `noValidData`. -/
theorem empty_dataset_witness :
    effectiveMapping (headersOf "phase,startDate,endDate\n\n ") none =
      some ⟨"phase", "startDate", "endDate"⟩ ∧
    indicesOf (headersOf "phase,startDate,endDate\n\n ")
      ⟨"phase", "startDate", "endDate"⟩ = some (0, 1, 2) ∧
    processCSV "phase,startDate,endDate\n\n " none = .failure .noDataRows ∧
    processCSV "phase,startDate,endDate\n,2024-01-01,2024-01-02" none =
      .failure .noValidData := by
  refine ⟨by decide, by decide, ?_, ?_⟩
  · exact (empty_dataset "phase,startDate,endDate\n\n " none
      ⟨"phase", "startDate", "endDate"⟩ 0 1 2 (by decide) (by decide)).1 (by decide)
  · exact (empty_dataset "phase,startDate,endDate\n,2024-01-01,2024-01-02" none
      ⟨"phase", "startDate", "endDate"⟩ 0 1 2 (by decide) (by decide)).2.1
      (by decide) (by decide)

/-! ## Claim C9: manual entry normalization -/

/-- C9: a batch of manual entries fails whole with `InvalidManualEntry` as
soon as one entry has a blank phase or `startMonth > endMonth`; otherwise
each entry yields one record whose start and end are the first days of its
months in the given year (months 0–11), so equal months give a record whose
start and end coincide. -/
theorem manual_entries (year : Nat) (entries : List ManualEntry) :
    ((∃ e ∈ entries, trimStr e.phase = "" ∨ e.endMonth < e.startMonth) →
      handleManualSubmit year entries = .error .invalidManualEntry) ∧
    ((∀ e ∈ entries, trimStr e.phase ≠ "" ∧ e.startMonth ≤ e.endMonth) →
      handleManualSubmit year entries = .ok (entries.map (manualRecord year))) ∧
    (∀ mo, mo ≤ 11 → monthStartOrd year mo = dateOrd year (mo + 1) 1) ∧
    (∀ e : ManualEntry, e.startMonth = e.endMonth →
      (manualRecord year e).startDate = (manualRecord year e).endDate) := by
  refine ⟨?_, ?_, ?_, ?_⟩
  · rintro ⟨e, he, hviol⟩
    have hall : entries.all
        (fun e => trimStr e.phase != "" && e.startMonth ≤ e.endMonth) = false := by
      rw [List.all_eq_false]
      refine ⟨e, he, ?_⟩
      rcases hviol with h | h <;> simp [h]
    simp [handleManualSubmit, hall]
  · intro hok
    have hall : entries.all
        (fun e => trimStr e.phase != "" && e.startMonth ≤ e.endMonth) = true := by
      rw [List.all_eq_true]
      intro e he
      rcases hok e he with ⟨h1, h2⟩
      simp [h1, h2]
    simp [handleManualSubmit, hall]
  · intro mo hmo
    unfold monthStartOrd
    rw [Nat.div_eq_of_lt (by omega), Nat.mod_eq_of_lt (by omega), Nat.add_zero]
  · intro e h
    simp [manualRecord, h]

/-- Witness for C9: a start-after-end entry fails the whole batch; an
equal-months entry yields a single-day record on the month's first day. -/
theorem manual_entries_witness :
    ((⟨"P", 5, 3, ""⟩ : ManualEntry) ∈ [(⟨"P", 5, 3, ""⟩ : ManualEntry)] ∧
      (3 : Nat) < 5) ∧
    handleManualSubmit 2024 [⟨"P", 5, 3, ""⟩] = .error .invalidManualEntry ∧
    handleManualSubmit 2024 [⟨"Q", 3, 3, "d"⟩] =
      .ok [⟨"Q", dateOrd 2024 4 1, dateOrd 2024 4 1, some [("description", "d")]⟩] := by
  refine ⟨⟨by decide, by decide⟩, ?_, ?_⟩
  · exact (manual_entries 2024 [⟨"P", 5, 3, ""⟩]).1
      ⟨⟨"P", 5, 3, ""⟩, by decide, Or.inr (by decide)⟩
  · have h := (manual_entries 2024 [⟨"Q", 3, 3, "d"⟩]).2.1
      (by intro e he; simp at he; subst he; exact ⟨by decide, by decide⟩)
    rw [h]; rfl

/-- The one-step unfolding of the row loop on a non-empty row list. -/
theorem buildGroups_cons (pI sI eI : Nat) (headers : List String)
    (vs : List String) (rest : List (List String))
    (gs : List (String × List Entry)) :
    buildGroups pI sI eI headers (vs :: rest) gs =
      (if vs.getD pI "" == "" then buildGroups pI sI eI headers rest gs
       else
        match validateAndParseDate (vs.getD sI ""),
              validateAndParseDate (vs.getD eI "") with
        | some s, some e =>
          if e < s then .error (.invalidDateRange (vs.getD pI ""))
          else
            if !gs.any (fun p => p.1 == vs.getD pI "") &&
                protoProps.contains (vs.getD pI "") then
              .error .jsTypeError
            else
              buildGroups pI sI eI headers rest
                (groupsPush gs (vs.getD pI "")
                  ⟨s, e, rowAdditional headers pI sI eI vs⟩)
        | _, _ => .error .invalidDateFormat) := rfl

/-- Passing rows advance the loop without failing: the groups accumulator
steps to some new accumulator. -/
theorem buildGroups_passes_prefix (pI sI eI : Nat) (headers : List String)
    (pre rows' : List (List String)) (gs : List (String × List Entry))
    (hpre : ∀ vs ∈ pre, rowPasses pI sI eI vs) :
    ∃ gs', buildGroups pI sI eI headers (pre ++ rows') gs =
      buildGroups pI sI eI headers rows' gs' := by
  induction pre generalizing gs with
  | nil => exact ⟨gs, rfl⟩
  | cons vs rest ih =>
    have hv := hpre vs (List.mem_cons_self vs rest)
    have hrest : ∀ v ∈ rest, rowPasses pI sI eI v :=
      fun v hv' => hpre v (List.mem_cons_of_mem vs hv')
    rcases hv with hv | ⟨⟨s, e, hs, he, hse⟩, hproto⟩
    · rw [List.cons_append, buildGroups_cons, if_pos (beq_iff_eq.mpr hv)]
      exact ih gs hrest
    · rw [List.cons_append, buildGroups_cons]
      by_cases hp : vs.getD pI "" == ""
      · rw [if_pos hp]
        exact ih gs hrest
      · rw [if_neg hp, hs, he]
        simp only
        rw [if_neg (by omega)]
        have hpc : protoProps.contains (vs.getD pI "") = false :=
          Bool.eq_false_iff.mpr (fun hc => hproto ((contains_iff_mem _ _).mp hc))
        have hcf : ((!gs.any fun p => p.1 == vs.getD pI "") &&
            protoProps.contains (vs.getD pI "")) = false := by
          rw [hpc, Bool.and_false]
        rw [if_neg (by rw [hcf]; exact Bool.false_ne_true)]
        exact ih _ hrest

/-- A surviving row with an unparsable date fails the loop with
`invalidDateFormat`. -/
theorem buildGroups_format_failure (pI sI eI : Nat) (headers : List String)
    (bad : List String) (rest : List (List String))
    (gs : List (String × List Entry))
    (hphase : bad.getD pI "" ≠ "")
    (hbad : validateAndParseDate (bad.getD sI "") = none ∨
      validateAndParseDate (bad.getD eI "") = none) :
    buildGroups pI sI eI headers (bad :: rest) gs = .error .invalidDateFormat := by
  rw [buildGroups_cons, if_neg (by simpa using hphase)]
  rcases hbad with h | h
  · rw [h]
  · rw [h]
    cases validateAndParseDate (bad.getD sI "") <;> rfl

/-- A surviving row with both dates parsed and end before start fails the
loop with `invalidDateRange` for that row's phase. -/
theorem buildGroups_range_failure (pI sI eI : Nat) (headers : List String)
    (bad : List String) (rest : List (List String))
    (gs : List (String × List Entry)) (s e : Nat)
    (hphase : bad.getD pI "" ≠ "")
    (hs : validateAndParseDate (bad.getD sI "") = some s)
    (he : validateAndParseDate (bad.getD eI "") = some e)
    (hlt : e < s) :
    buildGroups pI sI eI headers (bad :: rest) gs =
      .error (.invalidDateRange (bad.getD pI "")) := by
  rw [buildGroups_cons, if_neg (by simpa using hphase), hs, he]
  simp only
  rw [if_pos hlt]

/-! ## Claim C5 (corrected): the InvalidDateFormat failure -/

/-- Counterexample to C5 as stated: the second data row's start date
`2024-13-99` is malformed, yet the call fails with `InvalidDateRange "A"`
because the first row's inverted range is reached earlier. -/
theorem c5_counterexample :
    validateAndParseDate "2024-13-99" = none ∧
    processCSV "phase,startDate,endDate\nA,2024-01-10,2024-01-01\nB,2024-13-99,2024-01-05"
        none =
      .failure (.invalidDateRange "A") := by
  constructor <;> decide

/-- C5 (amended): when a data row with a non-empty phase has an unparsable
start or end value and every earlier data row passes validation (empty
phase, or parsable dates with start ≤ end and a phase that does not collide
with an `Object.prototype` property), the whole call fails with
`InvalidDateFormat` and no timeline is produced. -/
theorem invalid_date_format_batch (csv : String) (m? : Option FieldMapping)
    (mapping : FieldMapping) (pI sI eI : Nat)
    (pre : List (List String)) (bad : List String) (rest : List (List String))
    (hm : effectiveMapping (headersOf csv) m? = some mapping)
    (hi : indicesOf (headersOf csv) mapping = some (pI, sI, eI))
    (hrows : dataRowsOf csv = pre ++ bad :: rest)
    (hpre : ∀ vs ∈ pre, rowPasses pI sI eI vs)
    (hphase : bad.getD pI "" ≠ "")
    (hbad : validateAndParseDate (bad.getD sI "") = none ∨
      validateAndParseDate (bad.getD eI "") = none) :
    processCSV csv m? = .failure .invalidDateFormat := by
  obtain ⟨gs', hsplit⟩ :=
    buildGroups_passes_prefix pI sI eI (headersOf csv) pre (bad :: rest) [] hpre
  have hfail : buildGroups pI sI eI (headersOf csv) (dataRowsOf csv) [] =
      .error .invalidDateFormat := by
    rw [hrows, hsplit]
    exact buildGroups_format_failure _ _ _ _ _ _ _ hphase hbad
  have hne : (dataRowsOf csv).isEmpty = false := by
    rw [hrows]
    cases pre <;> rfl
  simp [processCSV, hm, hi, hne, hfail]

/-- Witness for C5 (amended): a malformed date in the second row, the first
row being valid, fails the call with `InvalidDateFormat`. -/
theorem invalid_date_format_batch_witness :
    dataRowsOf "phase,startDate,endDate\nA,2024-01-01,2024-01-02\nB,2024-13-99,2024-01-05" =
      [["A", "2024-01-01", "2024-01-02"], ["B", "2024-13-99", "2024-01-05"]] ∧
    processCSV "phase,startDate,endDate\nA,2024-01-01,2024-01-02\nB,2024-13-99,2024-01-05"
        none =
      .failure .invalidDateFormat := by
  refine ⟨by decide, ?_⟩
  exact invalid_date_format_batch _ none ⟨"phase", "startDate", "endDate"⟩ 0 1 2
    [["A", "2024-01-01", "2024-01-02"]] ["B", "2024-13-99", "2024-01-05"] []
    (by decide) (by decide) (by decide)
    (by intro vs hvs; simp at hvs; subst hvs;
        exact Or.inr ⟨⟨dateOrd 2024 1 1, dateOrd 2024 1 2, by decide, by decide, by decide⟩, by decide⟩)
    (by decide) (Or.inl (by decide))

/-! ## Claim C6 (corrected): the InvalidDateRange failure -/

/-- Counterexample to C6 as stated: the second data row has well-formed
dates with end before start, yet the call fails with `InvalidDateFormat`
because the first row's malformed date is reached earlier. -/
theorem c6_counterexample :
    validateAndParseDate "2024-01-10" = some (dateOrd 2024 1 10) ∧
    validateAndParseDate "2024-01-01" = some (dateOrd 2024 1 1) ∧
    dateOrd 2024 1 1 < dateOrd 2024 1 10 ∧
    processCSV "phase,startDate,endDate\nA,2024-13-99,2024-01-05\nB,2024-01-10,2024-01-01"
        none =
      .failure .invalidDateFormat := by
  refine ⟨by decide, by decide, by decide, by decide⟩

/-- C6 (amended): when a data row with a non-empty phase has well-formed
dates whose end is strictly before its start and every earlier data row
passes validation (empty phase, or parsable dates with start ≤ end and a
phase that does not collide with an `Object.prototype` property), the whole
call fails with `InvalidDateRange` naming that row's phase. -/
theorem invalid_date_range_batch (csv : String) (m? : Option FieldMapping)
    (mapping : FieldMapping) (pI sI eI : Nat)
    (pre : List (List String)) (bad : List String) (rest : List (List String))
    (s e : Nat)
    (hm : effectiveMapping (headersOf csv) m? = some mapping)
    (hi : indicesOf (headersOf csv) mapping = some (pI, sI, eI))
    (hrows : dataRowsOf csv = pre ++ bad :: rest)
    (hpre : ∀ vs ∈ pre, rowPasses pI sI eI vs)
    (hphase : bad.getD pI "" ≠ "")
    (hs : validateAndParseDate (bad.getD sI "") = some s)
    (he : validateAndParseDate (bad.getD eI "") = some e)
    (hlt : e < s) :
    processCSV csv m? = .failure (.invalidDateRange (bad.getD pI "")) := by
  obtain ⟨gs', hsplit⟩ :=
    buildGroups_passes_prefix pI sI eI (headersOf csv) pre (bad :: rest) [] hpre
  have hfail : buildGroups pI sI eI (headersOf csv) (dataRowsOf csv) [] =
      .error (.invalidDateRange (bad.getD pI "")) := by
    rw [hrows, hsplit]
    exact buildGroups_range_failure _ _ _ _ _ _ _ _ _ hphase hs he hlt
  have hne : (dataRowsOf csv).isEmpty = false := by
    rw [hrows]
    cases pre <;> rfl
  simp [processCSV, hm, hi, hne, hfail]

/-- Witness for C6 (amended): an inverted range in the second row, the
first row being valid, fails the call with `InvalidDateRange "B"`. -/
theorem invalid_date_range_batch_witness :
    dataRowsOf "phase,startDate,endDate\nA,2024-01-01,2024-01-02\nB,2024-01-10,2024-01-01" =
      [["A", "2024-01-01", "2024-01-02"], ["B", "2024-01-10", "2024-01-01"]] ∧
    processCSV "phase,startDate,endDate\nA,2024-01-01,2024-01-02\nB,2024-01-10,2024-01-01"
        none =
      .failure (.invalidDateRange "B") := by
  refine ⟨by decide, ?_⟩
  have h := invalid_date_range_batch
    "phase,startDate,endDate\nA,2024-01-01,2024-01-02\nB,2024-01-10,2024-01-01"
    none ⟨"phase", "startDate", "endDate"⟩ 0 1 2
    [["A", "2024-01-01", "2024-01-02"]] ["B", "2024-01-10", "2024-01-01"] []
    (dateOrd 2024 1 10) (dateOrd 2024 1 1)
    (by decide) (by decide) (by decide)
    (by intro vs hvs; simp at hvs; subst hvs;
        exact Or.inr ⟨⟨dateOrd 2024 1 1, dateOrd 2024 1 2, by decide, by decide, by decide⟩, by decide⟩)
    (by decide) (by decide) (by decide) (by decide)
  rw [h]; rfl

/-! ## Claim C10: empty-phase rows are skipped before validation -/

/-- A row loop never fails when every surviving row passes validation. -/
theorem buildGroups_all_pass (pI sI eI : Nat) (headers : List String)
    (rows : List (List String)) (gs : List (String × List Entry))
    (h : ∀ vs ∈ rows, rowPasses pI sI eI vs) :
    ∃ gs', buildGroups pI sI eI headers rows gs = .ok gs' := by
  obtain ⟨gs', hsplit⟩ := buildGroups_passes_prefix pI sI eI headers rows [] gs h
  rw [List.append_nil] at hsplit
  exact ⟨gs', hsplit ▸ rfl⟩

/-- C10: a data row whose phase is empty after trimming is skipped before
its dates are examined — `buildGroups` ignores the row outright — so when
every row with a non-empty phase validates, the call never fails with
`InvalidDateFormat` or `InvalidDateRange`, whatever the skipped rows'
date cells contain. -/
theorem empty_phase_skipped (pI sI eI : Nat) (headers : List String)
    (vs : List String) (rest : List (List String))
    (gs : List (String × List Entry))
    (csv : String) (m? : Option FieldMapping) (p : String)
    (hv : vs.getD pI "" = "")
    (hgood : ∀ mapping pI' sI' eI',
      effectiveMapping (headersOf csv) m? = some mapping →
      indicesOf (headersOf csv) mapping = some (pI', sI', eI') →
      ∀ v ∈ dataRowsOf csv, rowPasses pI' sI' eI' v) :
    buildGroups pI sI eI headers (vs :: rest) gs =
      buildGroups pI sI eI headers rest gs ∧
    processCSV csv m? ≠ .failure .invalidDateFormat ∧
    processCSV csv m? ≠ .failure (.invalidDateRange p) := by
  refine ⟨?_, ?_⟩
  · rw [buildGroups_cons, if_pos (beq_iff_eq.mpr hv)]
  · cases hEM : effectiveMapping (headersOf csv) m? with
    | none => simp [processCSV, hEM]
    | some mp =>
      cases hIdx : indicesOf (headersOf csv) mp with
      | none => simp [processCSV, hEM, hIdx]
      | some idx =>
        obtain ⟨pI', sI', eI'⟩ := idx
        obtain ⟨gs', hok⟩ := buildGroups_all_pass pI' sI' eI' (headersOf csv)
          (dataRowsOf csv) [] (hgood mp pI' sI' eI' hEM hIdx)
        by_cases hrows : (dataRowsOf csv).isEmpty
        · simp [processCSV, hEM, hIdx, hrows]
        · by_cases hgs : gs'.isEmpty
          · simp [processCSV, hEM, hIdx, hrows, hok, hgs]
          · simp only [processCSV, hEM, hIdx, hrows, Bool.false_eq_true, if_false,
              hok, hgs]
            constructor <;> {
              intro hc
              split at hc <;> cases hc
            }

/-- Witness for C10: a row with an empty phase and garbage in both date
cells is dropped and the remaining valid row still yields a timeline. -/
theorem empty_phase_skipped_witness :
    (["", "garbage", "junk"].getD 0 "" = "") ∧
    processCSV "phase,startDate,endDate\nA,2024-01-01,2024-01-02\n,garbage,junk"
        none ≠ .failure .invalidDateFormat ∧
    processCSV "phase,startDate,endDate\nA,2024-01-01,2024-01-02\n,garbage,junk"
        none ≠ .failure (.invalidDateRange "A") := by
  refine ⟨by decide, ?_⟩
  exact (empty_phase_skipped 0 1 2 ["phase", "startDate", "endDate"]
    ["", "garbage", "junk"] [] []
    "phase,startDate,endDate\nA,2024-01-01,2024-01-02\n,garbage,junk" none "A"
    (by decide)
    (by
      intro mapping pI' sI' eI' hEM hIdx v hv
      have hm : mapping = ⟨"phase", "startDate", "endDate"⟩ := by
        have : effectiveMapping
            (headersOf "phase,startDate,endDate\nA,2024-01-01,2024-01-02\n,garbage,junk")
            none = some ⟨"phase", "startDate", "endDate"⟩ := by decide
        rw [this] at hEM
        exact (Option.some.inj hEM).symm
      subst hm
      have hidx : (pI', sI', eI') = ((0 : Nat), (1 : Nat), (2 : Nat)) := by
        have : indicesOf
            (headersOf "phase,startDate,endDate\nA,2024-01-01,2024-01-02\n,garbage,junk")
            ⟨"phase", "startDate", "endDate"⟩ = some (0, 1, 2) := by decide
        rw [this] at hIdx
        exact (Option.some.inj hIdx).symm
      injection hidx with h1 h23
      injection h23 with h2 h3
      subst h1; subst h2; subst h3
      have hv' : v = ["A", "2024-01-01", "2024-01-02"] ∨
          v = ["", "garbage", "junk"] := by
        have : dataRowsOf
            "phase,startDate,endDate\nA,2024-01-01,2024-01-02\n,garbage,junk" =
            [["A", "2024-01-01", "2024-01-02"], ["", "garbage", "junk"]] := by decide
        rw [this] at hv
        simpa using hv
      rcases hv' with rfl | rfl
      · exact Or.inr ⟨⟨dateOrd 2024 1 1, dateOrd 2024 1 2, by decide, by decide, by decide⟩, by decide⟩
      · exact Or.inl (by decide))).2

/-! ## Keys of the phase groups (towards C3 and C4) -/

theorem firstAppear_cons (seen : List String) (p : String) (ps : List String) :
    firstAppear seen (p :: ps) =
      if seen.contains p then firstAppear seen ps
      else p :: firstAppear (seen ++ [p]) ps := rfl

theorem any_key_iff_mem (gs : List (String × List Entry)) (k : String) :
    gs.any (fun p => p.1 == k) = true ↔ k ∈ gs.map Prod.fst := by
  rw [List.any_eq_true]
  simp only [List.mem_map, beq_iff_eq]

theorem groupsPush_keys (gs : List (String × List Entry)) (k : String)
    (e : Entry) :
    (groupsPush gs k e).map Prod.fst =
      if k ∈ gs.map Prod.fst then gs.map Prod.fst
      else gs.map Prod.fst ++ [k] := by
  unfold groupsPush
  by_cases hmem : k ∈ gs.map Prod.fst
  · rw [if_pos ((any_key_iff_mem gs k).mpr hmem), if_pos hmem, List.map_map]
    apply List.map_congr_left
    intro p _
    by_cases hp : p.1 = k <;> simp [hp]
  · have : gs.any (fun p => p.1 == k) = false := by
      rw [← Bool.not_eq_true, any_key_iff_mem]
      exact hmem
    rw [this, if_neg hmem]
    simp

/-- The keys of the groups after the loop: the initial keys followed by the
first appearances of the surviving phases. -/
theorem buildGroups_keys (pI sI eI : Nat) (headers : List String)
    (rows : List (List String)) (gs0 gs : List (String × List Entry))
    (h : buildGroups pI sI eI headers rows gs0 = .ok gs) :
    gs.map Prod.fst =
      gs0.map Prod.fst ++
        firstAppear (gs0.map Prod.fst) (phasesFrom pI rows) := by
  induction rows generalizing gs0 with
  | nil =>
    cases h
    simp [phasesFrom, firstAppear]
  | cons vs rest ih =>
    by_cases hph : vs.getD pI "" = ""
    · rw [buildGroups_cons, if_pos (beq_iff_eq.mpr hph)] at h
      have hfil : phasesFrom pI (vs :: rest) = phasesFrom pI rest := by
        unfold phasesFrom
        rw [List.map_cons, List.filter_cons, hph]
        simp
      rw [hfil]
      exact ih gs0 h
    · rw [buildGroups_cons,
        if_neg (by simpa using hph)] at h
      have hfil : phasesFrom pI (vs :: rest) =
          vs.getD pI "" :: phasesFrom pI rest := by
        unfold phasesFrom
        rw [List.map_cons, List.filter_cons,
          if_pos (by simpa using hph : (vs.getD pI "" != "") = true)]
      cases hs : validateAndParseDate (vs.getD sI "") with
      | none =>
        rw [hs] at h
        cases he : validateAndParseDate (vs.getD eI "") <;> rw [he] at h <;>
          simp only at h <;> cases h
      | some s =>
        rw [hs] at h
        cases he : validateAndParseDate (vs.getD eI "") with
        | none => rw [he] at h; simp only at h; cases h
        | some en =>
          rw [he] at h
          simp only at h
          by_cases hlt : en < s
          · rw [if_pos hlt] at h; cases h
          · rw [if_neg hlt] at h
            by_cases hcr : ((!gs0.any fun p => p.1 == vs.getD pI "") &&
                protoProps.contains (vs.getD pI "")) = true
            · rw [if_pos hcr] at h; cases h
            · rw [if_neg hcr] at h
              have hkeys := groupsPush_keys gs0 (vs.getD pI "")
                ⟨s, en, rowAdditional headers pI sI eI vs⟩
              have := ih _ h
              rw [hkeys] at this
              rw [this, hfil, firstAppear_cons]
              by_cases hmem : vs.getD pI "" ∈ gs0.map Prod.fst
              · rw [if_pos hmem, if_pos ((contains_iff_mem _ _).mpr hmem)]
              · rw [if_neg hmem,
                  if_neg (by rw [contains_iff_mem]; exact hmem)]
                rw [List.append_assoc]
                rfl

theorem firstAppear_mem (l : List String) (seen : List String) (x : String) :
    x ∈ firstAppear seen l ↔ x ∈ l ∧ x ∉ seen := by
  induction l generalizing seen with
  | nil => simp [firstAppear]
  | cons p ps ih =>
    rw [firstAppear_cons]
    by_cases hp : p ∈ seen
    · rw [if_pos ((contains_iff_mem _ _).mpr hp), ih]
      constructor
      · rintro ⟨hx, hns⟩
        exact ⟨List.mem_cons_of_mem p hx, hns⟩
      · rintro ⟨hx, hns⟩
        rcases List.mem_cons.mp hx with rfl | hx
        · exact absurd hp hns
        · exact ⟨hx, hns⟩
    · rw [if_neg (by rw [contains_iff_mem]; exact hp)]
      rw [List.mem_cons, ih]
      simp only [List.mem_append, List.mem_singleton]
      constructor
      · rintro (rfl | ⟨hx, hns⟩)
        · exact ⟨List.mem_cons_self _ _, hp⟩
        · exact ⟨List.mem_cons_of_mem _ hx, fun hc => hns (Or.inl hc)⟩
      · rintro ⟨hx, hns⟩
        rcases List.mem_cons.mp hx with rfl | hx
        · exact Or.inl rfl
        · by_cases hxp : x = p
          · exact Or.inl hxp
          · exact Or.inr ⟨hx, fun hc => hc.elim hns (fun h => hxp h)⟩

theorem firstAppear_nodup (l : List String) (seen : List String)
    (hseen : seen.Nodup) : (seen ++ firstAppear seen l).Nodup := by
  induction l generalizing seen with
  | nil => simpa [firstAppear]
  | cons p ps ih =>
    rw [firstAppear_cons]
    by_cases hp : p ∈ seen
    · rw [if_pos ((contains_iff_mem _ _).mpr hp)]
      exact ih seen hseen
    · rw [if_neg (by rw [contains_iff_mem]; exact hp)]
      have hseen' : (seen ++ [p]).Nodup := by
        rw [List.nodup_append]
        exact ⟨hseen, List.nodup_singleton p,
          fun a ha hb => by
            rw [List.mem_singleton] at hb
            exact hp (hb ▸ ha)⟩
      have := ih (seen ++ [p]) hseen'
      rwa [List.append_assoc, List.singleton_append] at this

/-- In an association list with distinct keys, `find?` on a member's key
returns exactly that member. -/
theorem find_of_mem_keys_nodup (gs : List (String × List Entry))
    (p : String) (es : List Entry)
    (hnd : (gs.map Prod.fst).Nodup) (hmem : (p, es) ∈ gs) :
    gs.find? (fun q => q.1 == p) = some (p, es) := by
  induction gs with
  | nil => cases hmem
  | cons q qs ih =>
    rw [List.map_cons, List.nodup_cons] at hnd
    rcases List.mem_cons.mp hmem with rfl | hmem'
    · simp [List.find?_cons]
    · have hq : q.1 ≠ p := by
        intro hc
        exact hnd.1 (hc ▸ List.mem_map_of_mem Prod.fst hmem')
      have hbe : (q.1 == p) = false := beq_eq_false_iff_ne.mpr hq
      simp only [List.find?_cons, hbe]
      exact ih hnd.2 hmem'

/-- Every group the loop builds holds at least one entry. -/
theorem buildGroups_nonempty (pI sI eI : Nat) (headers : List String)
    (rows : List (List String)) (gs0 gs : List (String × List Entry))
    (h : buildGroups pI sI eI headers rows gs0 = .ok gs)
    (h0 : ∀ q ∈ gs0, q.2 ≠ []) : ∀ q ∈ gs, q.2 ≠ [] := by
  induction rows generalizing gs0 with
  | nil => cases h; exact h0
  | cons vs rest ih =>
    by_cases hph : vs.getD pI "" = ""
    · rw [buildGroups_cons, if_pos (beq_iff_eq.mpr hph)] at h
      exact ih gs0 h h0
    · rw [buildGroups_cons, if_neg (by simpa using hph)] at h
      cases hs : validateAndParseDate (vs.getD sI "") with
      | none =>
        rw [hs] at h
        cases he : validateAndParseDate (vs.getD eI "") <;> rw [he] at h <;>
          simp only at h <;> cases h
      | some s =>
        rw [hs] at h
        cases he : validateAndParseDate (vs.getD eI "") with
        | none => rw [he] at h; simp only at h; cases h
        | some en =>
          rw [he] at h
          simp only at h
          by_cases hlt : en < s
          · rw [if_pos hlt] at h; cases h
          · rw [if_neg hlt] at h
            by_cases hcr : ((!gs0.any fun p => p.1 == vs.getD pI "") &&
                protoProps.contains (vs.getD pI "")) = true
            · rw [if_pos hcr] at h; cases h
            · rw [if_neg hcr] at h
              refine ih _ h ?_
              intro q hq
              unfold groupsPush at hq
              split at hq
              · rcases List.mem_map.mp hq with ⟨r, hr, rfl⟩
                by_cases hrk : r.1 = vs.getD pI ""
                · simp only [hrk, if_pos]
                  simp
                · rw [if_neg (by simpa using hrk)]
                  exact h0 r hr
              · rcases List.mem_append.mp hq with hq' | hq'
                · exact h0 q hq'
                · rw [List.mem_singleton] at hq'
                  subst hq'
                  simp

/-- One merge step on a non-empty accumulator keeps a non-empty
accumulator whose head has the same start date. -/
theorem mergeStep_head (a : Entry) (acc : List Entry) (x : Entry) :
    ∃ c tail, mergeStep (a :: acc) x = c :: tail ∧ c.startDate = a.startDate := by
  cases acc with
  | nil =>
    unfold mergeStep
    simp only [List.getLast?_singleton]
    by_cases hc : (x.startDate < a.endDate || x.startDate == a.endDate ||
        a.endDate + 1 == x.startDate) = true
    · rw [if_pos hc]
      exact ⟨_, _, rfl, rfl⟩
    · rw [if_neg hc]
      exact ⟨a, [x], rfl, rfl⟩
  | cons b bs =>
    unfold mergeStep
    rw [List.getLast?_cons_cons]
    have hex : ∃ L, (b :: bs).getLast? = some L := by
      cases hbs : (b :: bs).getLast? with
      | none => simp [List.getLast?_eq_none_iff] at hbs
      | some L => exact ⟨L, rfl⟩
    obtain ⟨L, hL⟩ := hex
    simp only [hL]
    by_cases hc : (x.startDate < L.endDate || x.startDate == L.endDate ||
        L.endDate + 1 == x.startDate) = true
    · rw [if_pos hc]
      rw [List.dropLast_cons₂, List.cons_append]
      exact ⟨a, _, rfl, rfl⟩
    · rw [if_neg hc, List.cons_append]
      exact ⟨a, _, rfl, rfl⟩

/-- The fold of merge steps started on a non-empty accumulator returns a
non-empty list whose head keeps the accumulator head's start date. -/
theorem foldl_mergeStep_head (l : List Entry) (a : Entry) (acc : List Entry) :
    ∃ b tail, List.foldl mergeStep (a :: acc) l = b :: tail ∧
      b.startDate = a.startDate := by
  induction l generalizing a acc with
  | nil => exact ⟨a, acc, rfl, rfl⟩
  | cons x xs ih =>
    rw [List.foldl_cons]
    obtain ⟨c, tail, hstep, hc⟩ := mergeStep_head a acc x
    rw [hstep]
    obtain ⟨b, tail', hfold, hb⟩ := ih c tail
    exact ⟨b, tail', hfold, hb.trans hc⟩

/-- The record a phase group produces: its phase is the group key and its
start date is the minimum start date of the group's entries. -/
theorem consolidatePhase_min (p : String) (es : List Entry) (hne : es ≠ []) :
    (consolidatePhase p es).phase = p ∧
    (consolidatePhase p es).startDate ∈ es.map (fun x => x.startDate) ∧
    ∀ x ∈ es, (consolidatePhase p es).startDate ≤ x.startDate := by
  cases hs : sortByStart es with
  | nil =>
    exfalso
    apply hne
    have hlen : es.length = 0 := by
      rw [← List.length_insertionSort entryLE es]
      unfold sortByStart at hs
      rw [hs]
      rfl
    exact List.eq_nil_of_length_eq_zero hlen
  | cons s0 stail =>
    have hsorted : List.Sorted entryLE (s0 :: stail) := by
      rw [← hs]
      exact List.sorted_insertionSort entryLE es
    have hmemsort : ∀ x : Entry, x ∈ s0 :: stail ↔ x ∈ es := by
      intro x
      rw [← hs]
      exact List.mem_insertionSort entryLE
    have hmr : mergeRanges (sortByStart es) = List.foldl mergeStep [s0] stail := by
      rw [hs]
      rfl
    obtain ⟨b, tail, hfold, hb⟩ := foldl_mergeStep_head stail s0 []
    have hrec : consolidatePhase p es =
        ⟨p, b.startDate, b.endDate, some b.additionalData⟩ := by
      unfold consolidatePhase
      rw [hmr, hfold]
      rfl
    refine ⟨by rw [hrec], ?_, ?_⟩
    · rw [hrec, hb]
      exact List.mem_map_of_mem (fun x => x.startDate)
        ((hmemsort s0).mp (List.mem_cons_self s0 stail))
    · intro x hx
      rw [hrec, hb]
      rcases List.mem_cons.mp ((hmemsort x).mpr hx) with rfl | hx'
      · exact Nat.le_refl _
      · exact List.rel_of_sorted_cons hsorted x hx'

/-- What a delivered timeline tells us about the pipeline stages. -/
theorem processCSV_timeline_inv (csv : String) (m? : Option FieldMapping)
    (recs : List TimelineRecord) (h : processCSV csv m? = .timeline recs) :
    ∃ mapping pI sI eI gs,
      effectiveMapping (headersOf csv) m? = some mapping ∧
      indicesOf (headersOf csv) mapping = some (pI, sI, eI) ∧
      buildGroups pI sI eI (headersOf csv) (dataRowsOf csv) [] = .ok gs ∧
      gs ≠ [] ∧
      recs = (jsEntries gs).map (fun q => consolidatePhase q.1 q.2) := by
  simp only [processCSV] at h
  cases hEM : effectiveMapping (headersOf csv) m? with
  | none => simp only [hEM] at h; cases h
  | some mapping =>
    simp only [hEM] at h
    cases hIdx : indicesOf (headersOf csv) mapping with
    | none => simp only [hIdx] at h; cases h
    | some idx =>
      obtain ⟨pI, sI, eI⟩ := idx
      simp only [hIdx] at h
      by_cases hrows : (dataRowsOf csv).isEmpty
      · simp only [hrows, if_true] at h; cases h
      · simp only [hrows, Bool.false_eq_true, if_false] at h
        cases hB : buildGroups pI sI eI (headersOf csv) (dataRowsOf csv) [] with
        | error e => simp only [hB] at h; cases h
        | ok gs =>
          simp only [hB] at h
          by_cases hgs : gs.isEmpty
          · simp only [hgs, if_true] at h; cases h
          · simp only [hgs, Bool.false_eq_true, if_false] at h
            by_cases hcons : ((jsEntries gs).map
                (fun q => consolidatePhase q.1 q.2)).isEmpty
            · simp only [hcons, if_true] at h; cases h
            · simp only [hcons, Bool.false_eq_true, if_false] at h
              cases h
              refine ⟨mapping, pI, sI, eI, gs, rfl, hIdx, hB, ?_, rfl⟩
              cases gs with
              | nil => simp at hgs
              | cons a l => exact fun hc => by cases hc

/-! ## Claim C3: one record per distinct phase, starting at the minimum -/

/-- C3: whenever consolidation delivers a timeline, its records bear
pairwise distinct phases, the set of phases is exactly the set of non-empty
phase values of the data rows, and each record starts at the minimum start
date among its phase's validated entries. -/
theorem one_record_per_phase (csv : String) (m? : Option FieldMapping)
    (recs : List TimelineRecord) (h : processCSV csv m? = .timeline recs) :
    (recs.map (fun r => r.phase)).Nodup ∧
    (∀ p, p ∈ recs.map (fun r => r.phase) ↔ p ∈ phasesOf csv m?) ∧
    (∀ r ∈ recs,
      r.startDate ∈ (entriesOf csv m? r.phase).map (fun x => x.startDate) ∧
      ∀ x ∈ entriesOf csv m? r.phase, r.startDate ≤ x.startDate) := by
  obtain ⟨mapping, pI, sI, eI, gs, hEM, hIdx, hB, hne, hrecs⟩ :=
    processCSV_timeline_inv csv m? recs h
  have hkeys : gs.map Prod.fst =
      firstAppear [] (phasesFrom pI (dataRowsOf csv)) := by
    have := buildGroups_keys pI sI eI (headersOf csv) (dataRowsOf csv) [] gs hB
    simpa using this
  have hphases : phasesOf csv m? = phasesFrom pI (dataRowsOf csv) := by
    simp [phasesOf, hEM, hIdx, phasesFrom]
  have hmapphase : recs.map (fun r => r.phase) = (jsEntries gs).map Prod.fst := by
    rw [hrecs, List.map_map]
    rfl
  have hperm : ((jsEntries gs).map Prod.fst).Perm (gs.map Prod.fst) :=
    (jsEntries_perm gs).map Prod.fst
  have hnodup_keys : (gs.map Prod.fst).Nodup := by
    rw [hkeys]
    have := firstAppear_nodup (phasesFrom pI (dataRowsOf csv)) [] List.nodup_nil
    simpa using this
  refine ⟨?_, ?_, ?_⟩
  · rw [hmapphase]
    exact hperm.nodup_iff.mpr hnodup_keys
  · intro p
    rw [hmapphase, hperm.mem_iff, hkeys, firstAppear_mem, hphases]
    simp
  · intro r hr
    rw [hrecs] at hr
    rcases List.mem_map.mp hr with ⟨q, hq, rfl⟩
    obtain ⟨q1, q2⟩ := q
    have hq' : (q1, q2) ∈ gs := (jsEntries_perm gs).mem_iff.mp hq
    have hfind : gs.find? (fun t => t.1 == q1) = some (q1, q2) :=
      find_of_mem_keys_nodup gs q1 q2 hnodup_keys hq'
    have hents : entriesOf csv m? (consolidatePhase q1 q2).phase = q2 := by
      have hgOf : groupsOf csv m? = gs := by
        simp [groupsOf, hEM, hIdx, hB]
      show entriesOf csv m? q1 = q2
      unfold entriesOf
      rw [hgOf, hfind]
      rfl
    have hne2 : q2 ≠ [] :=
      buildGroups_nonempty pI sI eI (headersOf csv) (dataRowsOf csv) [] gs hB
        (fun q hq => by cases hq) (q1, q2) hq'
    obtain ⟨hph, hmem, hle⟩ := consolidatePhase_min q1 q2 hne2
    rw [hents]
    exact ⟨hmem, hle⟩

/-- Witness for C3: a three-row input with phases B, A, B yields two
records with distinct phases. -/
theorem one_record_per_phase_witness :
    processCSV "phase,startDate,endDate\nB,2024-01-05,2024-01-06\nA,2024-01-01,2024-01-02\nB,2024-01-03,2024-01-04"
        none =
      .timeline [⟨"B", 739253, 739256, some []⟩, ⟨"A", 739251, 739252, some []⟩] ∧
    (([⟨"B", 739253, 739256, some []⟩,
       ⟨"A", 739251, 739252, some []⟩] : List TimelineRecord).map
        (fun r => r.phase)).Nodup := by
  refine ⟨by decide, ?_⟩
  exact (one_record_per_phase
    "phase,startDate,endDate\nB,2024-01-05,2024-01-06\nA,2024-01-01,2024-01-02\nB,2024-01-03,2024-01-04"
    none
    [⟨"B", 739253, 739256, some []⟩, ⟨"A", 739251, 739252, some []⟩]
    (by decide)).1

/-! ## Claim C4 (corrected): output order -/

/-- Counterexample to C4 as stated: the phases appear in the order
`"2"`, `"1"` in the input, but the output lists `"1"` before `"2"`,
because JavaScript object enumeration puts array-index keys first in
numeric order. -/
theorem c4_counterexample :
    processCSV "phase,startDate,endDate\n2,2024-01-01,2024-01-02\n1,2024-01-01,2024-01-02"
        none =
      .timeline [⟨"1", 739251, 739252, some []⟩, ⟨"2", 739251, 739252, some []⟩] ∧
    phasesOf "phase,startDate,endDate\n2,2024-01-01,2024-01-02\n1,2024-01-01,2024-01-02"
        none = ["2", "1"] ∧
    firstAppear []
      (phasesOf "phase,startDate,endDate\n2,2024-01-01,2024-01-02\n1,2024-01-01,2024-01-02"
        none) = ["2", "1"] ∧
    (["1", "2"] : List String) ≠ ["2", "1"] := by
  refine ⟨by decide, by decide, by decide, by decide⟩

/-- C4 (amended): when no surviving phase value is a canonical array-index
numeral, the delivered records are ordered by the first appearance of each
phase in the data rows. -/
theorem output_order_first_appearance (csv : String) (m? : Option FieldMapping)
    (recs : List TimelineRecord) (h : processCSV csv m? = .timeline recs)
    (hnum : ∀ p ∈ phasesOf csv m?, isArrayIndex p = false) :
    recs.map (fun r => r.phase) = firstAppear [] (phasesOf csv m?) := by
  obtain ⟨mapping, pI, sI, eI, gs, hEM, hIdx, hB, hne, hrecs⟩ :=
    processCSV_timeline_inv csv m? recs h
  have hkeys : gs.map Prod.fst =
      firstAppear [] (phasesFrom pI (dataRowsOf csv)) := by
    have := buildGroups_keys pI sI eI (headersOf csv) (dataRowsOf csv) [] gs hB
    simpa using this
  have hphases : phasesOf csv m? = phasesFrom pI (dataRowsOf csv) := by
    simp [phasesOf, hEM, hIdx, phasesFrom]
  have hkeysnum : ∀ q ∈ gs, isArrayIndex q.1 = false := by
    intro q hq
    have hmm : q.1 ∈ gs.map Prod.fst := List.mem_map_of_mem Prod.fst hq
    rw [hkeys] at hmm
    have hmem := (firstAppear_mem _ _ _).mp hmm
    exact hnum q.1 (by rw [hphases]; exact hmem.1)
  have hjs : jsEntries gs = gs := by
    unfold jsEntries
    have h1 : gs.filter (fun p => isArrayIndex p.1) = [] :=
      List.filter_eq_nil_iff.mpr (fun a ha => by simp [hkeysnum a ha])
    have h2 : gs.filter (fun p => !isArrayIndex p.1) = gs :=
      List.filter_eq_self.mpr (fun a ha => by simp [hkeysnum a ha])
    rw [h1, h2]
    rfl
  rw [hrecs, hjs, List.map_map]
  have hcomp : ((fun r : TimelineRecord => r.phase) ∘
      (fun q : String × List Entry => consolidatePhase q.1 q.2)) = Prod.fst := rfl
  rw [hcomp, hkeys, hphases]

/-- Witness for C4 (amended): with non-numeric phases B then A, the output
order matches first appearance. -/
theorem output_order_first_appearance_witness :
    (∀ p ∈ phasesOf "phase,startDate,endDate\nB,2024-01-01,2024-01-02\nA,2024-01-01,2024-01-02"
        none, isArrayIndex p = false) ∧
    ([⟨"B", 739251, 739252, some []⟩,
      ⟨"A", 739251, 739252, some []⟩] : List TimelineRecord).map
        (fun r => r.phase) =
      firstAppear []
        (phasesOf "phase,startDate,endDate\nB,2024-01-01,2024-01-02\nA,2024-01-01,2024-01-02"
          none) := by
  refine ⟨by decide, ?_⟩
  exact output_order_first_appearance
    "phase,startDate,endDate\nB,2024-01-01,2024-01-02\nA,2024-01-01,2024-01-02"
    none
    [⟨"B", 739251, 739252, some []⟩, ⟨"A", 739251, 739252, some []⟩]
    (by decide) (by decide)

end Storyline
